import Mathlib

/-!
Verification development for the ZenLedger core: a shallow embedding of the
persistence / session / ledger layer (src/services/storageService.ts), the
derived-analytics layer (the GenuineFiscalInsights component and the
currentBalance computation in src/App.tsx), and — for comparison against the
specification — the authorization gate described in the design document
(which has no counterpart in the source).

Modelling conventions:
* JS strings are Lean Strings; trim()/toLowerCase() are modelled character
  by character over the ASCII range (the only range the application's inputs
  exercise).
* JS numbers carrying money amounts are modelled as exact rationals;
  timestamps (Date.now() values) as integers.
* localStorage is passed explicitly: every operation takes the relevant
  stored collection and returns the response envelope together with the
  collection after the call.  A stored raw value that may be absent or
  unparseable is modelled by the StoredVal type; JSON.parse of a corrupt
  value throwing is modelled by an Except error.
* Nondeterministic ambient inputs (Date.now(), generated ids and tokens)
  are explicit parameters.
-/

namespace ZenLedger

/-! ## JS string primitives -/

/-- One-character lowering as JS toLowerCase acts on the ASCII range:
code points 65-90 map to 97-122, everything else is unchanged. -/
def lowerChar (c : Char) : Char :=
  if 65 ≤ c.toNat ∧ c.toNat ≤ 90 then Char.ofNat (c.toNat + 32) else c

/-- ASCII whitespace — space, tab, line feed, carriage return, vertical tab
and form feed, by code point — the class JS trim() removes at both ends. -/
def isWsChar (c : Char) : Bool :=
  (c.toNat == 32) || (c.toNat == 9) || (c.toNat == 10) ||
    (c.toNat == 13) || (c.toNat == 11) || (c.toNat == 12)

/-- Remove leading and trailing whitespace from a character list. -/
def trimChars (l : List Char) : List Char :=
  List.rdropWhile isWsChar (l.dropWhile isWsChar)

/-- JS s.trim(). -/
def jsTrim (s : String) : String := ⟨trimChars s.data⟩

/-- JS s.toLowerCase() (ASCII range). -/
def jsToLower (s : String) : String := ⟨s.data.map lowerChar⟩

/-- The normalization applied by the service to cluster ids and handles:
s.trim().toLowerCase(). -/
def jsNorm (s : String) : String := jsToLower (jsTrim s)

/-! ## Data model (src/types.ts) -/

/-- UserRole from types.ts. -/
inductive UserRole where
  | HOST
  | MEMBER
deriving DecidableEq, Repr

/-- TransactionType from types.ts. -/
inductive TransactionType where
  | CREDIT
  | DEBIT
deriving DecidableEq, Repr

/-- TransactionCategory from types.ts (the enum keys; the display strings are
presentation only). -/
inductive TransactionCategory where
  | ALLOWANCE
  | FOOD
  | GAMES
  | EDUCATION
  | ENTERTAINMENT
  | SAVINGS
  | GIFT
  | OTHER
deriving DecidableEq, Repr

/-- RequestStatus from types.ts. -/
inductive RequestStatus where
  | PENDING
  | APPROVED
  | REJECTED
deriving DecidableEq, Repr

/-- User from types.ts.  The optional password is always set by the two
creation paths, so it is modelled as a plain field. -/
structure User where
  id : String
  familyId : String
  name : String
  username : String
  password : String
  role : UserRole
  parentId : Option String
  isActive : Bool
deriving DecidableEq, Repr

/-- Transaction from types.ts; amount is an exact rational, timestamp an
integer milliseconds-since-epoch value. -/
structure Transaction where
  id : String
  userId : String
  amount : ℚ
  type : TransactionType
  category : TransactionCategory
  description : String
  timestamp : ℤ
deriving DecidableEq, Repr

/-- MoneyRequest from types.ts. -/
structure MoneyRequest where
  id : String
  childId : String
  amount : ℚ
  reason : String
  status : RequestStatus
  timestamp : ℤ
deriving DecidableEq, Repr

/-- FamilyMessage from types.ts. -/
structure FamilyMessage where
  id : String
  familyId : String
  fromId : String
  fromRole : UserRole
  toId : String
  text : String
  timestamp : ℤ
  isRead : Bool
  replyToId : Option String
deriving DecidableEq, Repr

/-- Session from types.ts (cloudSync is unused by the core and omitted). -/
structure Session where
  token : String
  userId : String
  familyId : String
  role : UserRole
  exp : ℤ
deriving DecidableEq, Repr

/-- ServiceResponse from types.ts. -/
structure ServiceResponse (α : Type) where
  success : Bool
  data : Option α
  error : Option String
deriving DecidableEq, Repr

/-- A raw localStorage slot: absent (getItem returns null), present but not
parseable as JSON (JSON.parse throws), or present with a parsed value. -/
inductive StoredVal (α : Type) where
  | absent
  | corrupt
  | val (a : α)
deriving DecidableEq, Repr

/-! ## storageService (src/services/storageService.ts)

Each operation takes the stored collection it touches (plus the ambient
inputs it reads) and returns the ServiceResponse together with the
collection after the call. -/

/-- signupCluster (storageService.ts lines 16-37): normalize the cluster id
and handle, refuse an exact duplicate of (familyId, username), otherwise
append a HOST identity.  freshId stands for the generated u_${Date.now()}. -/
def signupCluster (users : List User) (familyId handle pass freshId : String) :
    ServiceResponse User × List User :=
  let fid := jsNorm familyId
  let username := jsNorm handle
  if users.any fun u => u.familyId == fid && u.username == username then
    ({ success := false, data := none,
       error := some "Identity handle already provisioned in this cluster." }, users)
  else
    let newUser : User :=
      { id := freshId, familyId := fid, name := handle, username := username,
        password := pass, role := UserRole.HOST, parentId := none, isActive := true }
    ({ success := true, data := some newUser, error := none }, users ++ [newUser])

/-- provisionMember (storageService.ts lines 39-62): HOST-only; normalize the
handle, refuse an exact duplicate of (session.familyId, handle), otherwise
append a MEMBER identity parented to the session's user. -/
def provisionMember (users : List User) (session : Session) (username pass freshId : String) :
    ServiceResponse User × List User :=
  if session.role ≠ UserRole.HOST then
    ({ success := false, data := none,
       error := some "Authorization restricted to Host Nodes." }, users)
  else
    let handle := jsNorm username
    if users.any fun u => u.familyId == session.familyId && u.username == handle then
      ({ success := false, data := none, error := some "Member handle already provisioned." },
       users)
    else
      let newMember : User :=
        { id := freshId, familyId := session.familyId, name := username, username := handle,
          password := pass, role := UserRole.MEMBER, parentId := some session.userId,
          isActive := true }
      ({ success := true, data := some newMember, error := none }, users ++ [newMember])

/-- login (storageService.ts lines 64-86): normalize inputs, find an exact
match on (familyId, username, password), and on success issue a session
expiring SESSION_DURATION (86400000 ms) from now; the issued session is also
persisted (the second component). -/
def login (users : List User) (familyId handle pass tok : String) (now : ℤ) :
    ServiceResponse Session × Option Session :=
  let fid := jsNorm familyId
  let username := jsNorm handle
  match users.find? fun u => u.familyId == fid && u.username == username && u.password == pass with
  | none =>
      ({ success := false, data := none,
         error := some "Access Denied. Invalid credentials or Cluster ID." }, none)
  | some u =>
      let session : Session :=
        { token := tok, userId := u.id, familyId := u.familyId, role := u.role,
          exp := now + 86400000 }
      ({ success := true, data := some session, error := none }, some session)

/-- The collection readers (storageService.ts lines 88-91) all have the shape
JSON.parse(localStorage.getItem(KEY) || '[]'): an absent slot falls back to
the literal '[]' and parses to the empty list; a corrupt slot makes
JSON.parse throw, which nothing catches. -/
def readCollection {α : Type} (slot : StoredVal (List α)) : Except String (List α) :=
  match slot with
  | StoredVal.absent => Except.ok []
  | StoredVal.corrupt => Except.error "SyntaxError: unexpected token in JSON"
  | StoredVal.val l => Except.ok l

/-- getUsers (storageService.ts line 88). -/
def getUsers (slot : StoredVal (List User)) : Except String (List User) :=
  readCollection slot

/-- getTransactions (storageService.ts line 89). -/
def getTransactions (slot : StoredVal (List Transaction)) : Except String (List Transaction) :=
  readCollection slot

/-- getRequests (storageService.ts line 90). -/
def getRequests (slot : StoredVal (List MoneyRequest)) : Except String (List MoneyRequest) :=
  readCollection slot

/-- getMessages (storageService.ts line 91). -/
def getMessages (slot : StoredVal (List FamilyMessage)) : Except String (List FamilyMessage) :=
  readCollection slot

/-- saveTransaction (storageService.ts lines 109-113): prepend the given
transaction and report success.  The function reads the session parameter
but performs no check on it, and performs no validation of the transaction. -/
def saveTransaction (txs : List Transaction) (session : Session) (tx : Transaction) :
    ServiceResponse Transaction × List Transaction :=
  ({ success := true, data := some tx, error := none }, tx :: txs)

/-- createRequest (storageService.ts lines 115-127): build a PENDING request
for the session's user and prepend it; no check on the session, amount or
reason.  freshId and now stand for req_${Date.now()} and Date.now(). -/
def createRequest (reqs : List MoneyRequest) (session : Session) (amount : ℚ)
    (reason : String) (freshId : String) (now : ℤ) :
    ServiceResponse MoneyRequest × List MoneyRequest :=
  let newRequest : MoneyRequest :=
    { id := freshId, childId := session.userId, amount := amount, reason := reason,
      status := RequestStatus.PENDING, timestamp := now }
  ({ success := true, data := some newRequest, error := none }, newRequest :: reqs)

/-- updateRequestStatus (storageService.ts lines 129-138): HOST-only; find
the first request with the given id (findIndex), report Not found if none,
otherwise overwrite that request's status in place — whatever its current
status — and report success. -/
def updateRequestStatus (reqs : List MoneyRequest) (session : Session)
    (requestId : String) (status : RequestStatus) :
    ServiceResponse Bool × List MoneyRequest :=
  if session.role ≠ UserRole.HOST then
    ({ success := false, data := none, error := some "Unauthorized." }, reqs)
  else
    match reqs.findIdx? fun r => r.id == requestId with
    | none => ({ success := false, data := none, error := some "Not found." }, reqs)
    | some idx =>
        ({ success := true, data := some true, error := none },
         reqs.modify (fun r => { r with status := status }) idx)

/-- getStoredSession (storageService.ts lines 140-153): absent slot yields
null; a parsed session past its expiry (strictly: Date.now() > exp) is
removed from storage and null returned; an unparseable slot yields null
without touching storage (the catch branch). -/
def getStoredSession (slot : StoredVal Session) (now : ℤ) :
    Option Session × StoredVal Session :=
  match slot with
  | StoredVal.absent => (none, StoredVal.absent)
  | StoredVal.corrupt => (none, StoredVal.corrupt)
  | StoredVal.val s =>
      if now > s.exp then (none, StoredVal.absent) else (some s, StoredVal.val s)

/-- getOnboardingStatus (storageService.ts line 159): the flag slot for
userId is the key "onboarded_" ++ userId in the key-value store; the status
is whether it holds the literal string "true". -/
def getOnboardingStatus (kv : List (String × String)) (userId : String) : Bool :=
  kv.lookup ("onboarded_" ++ userId) == some "true"

/-- setOnboardingStatus (storageService.ts line 160): setItem of "true"
under the key "onboarded_" ++ userId (a fresh binding shadowing any older
one). -/
def setOnboardingStatus (kv : List (String × String)) (userId : String) :
    List (String × String) :=
  ("onboarded_" ++ userId, "true") :: kv

/-! ## Derived analytics (src/App.tsx) -/

/-- currentBalance (App.tsx lines 332-338): filter the transaction list to
the session's user and fold, adding CREDIT amounts and subtracting DEBIT
amounts, starting at 0.  The session enters only through its userId, which
is the explicit first parameter here. -/
def currentBalance (uid : String) (txs : List Transaction) : ℚ :=
  (txs.filter fun t => t.userId == uid).foldl
    (fun acc t => if t.type == TransactionType.CREDIT then acc + t.amount else acc - t.amount) 0

/-- Insert into a list already sorted by le, after every element that
compares le to the new one (so equal elements keep their original relative
order). -/
def insertOrd {α : Type} (le : α → α → Bool) (t : α) : List α → List α
  | [] => [t]
  | x :: xs => if le x t then x :: insertOrd le t xs else t :: x :: xs

/-- Stable sort by le, modelling the (stable) JS Array.prototype.sort with a
numeric comparator. -/
def sortOrd {α : Type} (le : α → α → Bool) (l : List α) : List α :=
  l.foldl (fun acc t => insertOrd le t acc) []

/-- The comparator (a, b) =\x3e a.timestamp - b.timestamp used for the
time-series sort, as a le test. -/
def leTs (a b : Transaction) : Bool := a.timestamp ≤ b.timestamp

/-- The comparator (a, b) =\x3e a - b used for the median sort, as a le test. -/
def leQ (a b : ℚ) : Bool := a ≤ b

/-- One step of the category-distribution reduce
acc[t.category] = (acc[t.category] || 0) + t.amount over a JS object modelled
as an association list in key-insertion order. -/
def bumpCat (acc : List (TransactionCategory × ℚ)) (c : TransactionCategory) (a : ℚ) :
    List (TransactionCategory × ℚ) :=
  match acc with
  | [] => [(c, a)]
  | (c', v) :: rest => if c' = c then (c', v + a) :: rest else (c', v) :: bumpCat rest c a

/-- The time-series reduce (App.tsx lines 65-75): walk the sorted
transactions, pushing one (timestamp, running balance) point per
transaction, where the running balance starts from 0 and adds CREDIT /
subtracts DEBIT amounts exactly as currentBalance does.  The rendered date
string is presentation and omitted. -/
def timeSeriesOf (sorted : List Transaction) : List (ℤ × ℚ) :=
  sorted.foldl
    (fun acc tx =>
      let lastBalance := ((acc.getLast?).map Prod.snd).getD 0
      let newBalance :=
        if tx.type == TransactionType.CREDIT then lastBalance + tx.amount
        else lastBalance - tx.amount
      acc ++ [(tx.timestamp, newBalance)])
    []

/-- Math.max on two rationals (an executable max). -/
def jsMax (a b : ℚ) : ℚ := if a ≤ b then b else a

/-- The stats record of the insights object.  stdDev is Math.sqrt of the
variance, an irrational display transform of the variance; the model keeps
the variance, from which stdDev is a presentation-level square root. -/
structure InsightStats where
  mean : ℚ
  median : ℚ
  variance : ℚ
  transactionCount : ℕ
deriving DecidableEq, Repr

/-- The insights object computed by GenuineFiscalInsights. -/
structure Insights where
  burnRate : ℚ
  liquidityIndex : ℚ
  categoryTotals : List (TransactionCategory × ℚ)
  timeSeries : List (ℤ × ℚ)
  stats : InsightStats
deriving DecidableEq, Repr

/-- The analytics engine (App.tsx lines 42-94, the useMemo body of
GenuineFiscalInsights).  Inputs are the transactions prop, the balance prop
and the ambient clock Date.now(); the result pairs the computed insights
(none when the transaction list is empty) with the caller's transaction
array after the call: both sorts are written over spread copies
([...transactions].sort, [...amounts].sort), so the mutating JS sort acts on
the copies and the source array is returned as it was received. -/
def fiscalInsights (transactions : List Transaction) (balance : ℚ) (now : ℤ) :
    Option Insights × List Transaction :=
  if transactions.length = 0 then (none, transactions)
  else
    let debits := transactions.filter fun t => t.type == TransactionType.DEBIT
    let totalDebits : ℚ := (debits.map Transaction.amount).sum
    let timestamps := transactions.map Transaction.timestamp
    let firstTx : ℤ := match timestamps.min? with
      | some m => m
      | none => now
    let daysSinceStart : ℚ := jsMax 1 ((((now : ℚ) - (firstTx : ℚ))) / 86400000)
    let burnRate : ℚ := totalDebits / daysSinceStart
    let liquidityIndex : ℚ := if balance > 0 ∧ burnRate > 0 then balance / burnRate else 0
    let categoryTotals := debits.foldl (fun acc t => bumpCat acc t.category t.amount) []
    let sortedTxs := sortOrd leTs transactions
    let timeSeries := timeSeriesOf sortedTxs
    let amounts := transactions.map Transaction.amount
    let mean : ℚ := amounts.sum / (amounts.length : ℚ)
    let sortedAmounts := sortOrd leQ amounts
    let median : ℚ :=
      if sortedAmounts.length % 2 = 0 then
        (sortedAmounts.getD (sortedAmounts.length / 2 - 1) 0
          + sortedAmounts.getD (sortedAmounts.length / 2) 0) / 2
      else sortedAmounts.getD (sortedAmounts.length / 2) 0
    let variance : ℚ :=
      (amounts.map fun amt => (amt - mean) ^ 2).sum / (amounts.length : ℚ)
    (some
      { burnRate := burnRate, liquidityIndex := liquidityIndex,
        categoryTotals := categoryTotals, timeSeries := timeSeries,
        stats :=
          { mean := mean, median := median, variance := variance,
            transactionCount := transactions.length } },
     transactions)

/-! ## The authorization gate of the specification

The design document's section 4.4 describes a stateless authorize predicate
that every write path is required to consult.  No such gate exists anywhere
in the source; it is modelled here from the spec so that claims about it
can be stated and compared with what the storage service actually does. -/

/-- Modelled from the spec: the action vocabulary of the authorization gate
(section 4.4), missing from the source. -/
inductive AuthAction where
  | provisionMemberAct
  | creditArbitraryIdentity
  | recordOwnTransaction
  | createRequestAct
  | resolveRequest
  | sendMessageAct
deriving DecidableEq, Repr

/-- Modelled from the spec: the target of an authorization decision, carrying
the identity and cluster the operation acts on (section 4.4). -/
structure AuthTarget where
  identityId : String
  clusterId : String
deriving DecidableEq, Repr

/-- Modelled from the spec: the permit table of section 4.4, missing from the
source.  Each row is the permit condition for one action; everything not
permitted is denied. -/
def specAuthorize (session : Session) (a : AuthAction) (target : AuthTarget) : Bool :=
  match a with
  | AuthAction.provisionMemberAct => session.role == UserRole.HOST
  | AuthAction.creditArbitraryIdentity =>
      session.role == UserRole.HOST && target.clusterId == session.familyId
  | AuthAction.recordOwnTransaction => target.identityId == session.userId
  | AuthAction.createRequestAct => session.role == UserRole.MEMBER
  | AuthAction.resolveRequest =>
      session.role == UserRole.HOST && target.clusterId == session.familyId
  | AuthAction.sendMessageAct => target.clusterId == session.familyId

/-! ## System runs touching the identity collection

For the uniqueness invariant the relevant state is the stored user list
together with the sessions the system has handed out so far (login is the
only producer of sessions; getStoredSession only replays what login
persisted, so tracking every session ever issued is a sound
over-approximation of whichever one a caller may still hold). -/

/-- The state a run of the identity-touching operations acts on. -/
structure IdentityStore where
  users : List User
  issued : List Session
deriving Repr

/-- One call of an identity-touching operation.  signup and provision always
step to the function's resulting user list (unchanged on failure); login
records the issued session when it succeeds; a provision call may present
any previously issued session. -/
inductive IdentityStep : IdentityStore → IdentityStore → Prop where
  | signup (S : IdentityStore) (familyId handle pass freshId : String) :
      IdentityStep S
        { users := (signupCluster S.users familyId handle pass freshId).2,
          issued := S.issued }
  | loginStep (S : IdentityStore) (familyId handle pass tok : String) (now : ℤ)
      (sess : Session)
      (h : (login S.users familyId handle pass tok now).2 = some sess) :
      IdentityStep S { users := S.users, issued := sess :: S.issued }
  | provision (S : IdentityStore) (sess : Session) (username pass freshId : String)
      (h : sess ∈ S.issued) :
      IdentityStep S
        { users := (provisionMember S.users sess username pass freshId).2,
          issued := S.issued }

/-- States reachable from the empty store by identity-touching calls. -/
inductive ReachableIdentity : IdentityStore → Prop where
  | init : ReachableIdentity { users := [], issued := [] }
  | step {S S' : IdentityStore} (hR : ReachableIdentity S) (hS : IdentityStep S S') :
      ReachableIdentity S'

/-- No two users of the list agree exactly on (familyId, username). -/
def UsersDistinct (users : List User) : Prop :=
  users.Pairwise fun u v => ¬(u.familyId = v.familyId ∧ u.username = v.username)

/-- No two users of the list agree on (familyId, username) after trimming and
case-folding: the uniqueness property the spec claims. -/
def UsersDistinctNorm (users : List User) : Prop :=
  users.Pairwise fun u v =>
    ¬(jsNorm u.familyId = jsNorm v.familyId ∧ jsNorm u.username = jsNorm v.username)

/-- The inductive invariant: stored identity handles and cluster ids are
normalization fixpoints, no two users collide exactly, and every issued
session carries the familyId of some stored user. -/
def IdentityInv (S : IdentityStore) : Prop :=
  (∀ u ∈ S.users, jsNorm u.familyId = u.familyId ∧ jsNorm u.username = u.username) ∧
  UsersDistinct S.users ∧
  ∀ sess ∈ S.issued, ∃ u ∈ S.users, sess.familyId = u.familyId

/-! ## Claim C1: recordTransaction authorization and validation -/

/-- A member session used to exhibit the missing write gate. -/
def memberSession : Session :=
  { token := "tok", userId := "u_member", familyId := "fam1",
    role := UserRole.MEMBER, exp := 1000000 }

/-- A transaction on somebody else's identity with a non-positive amount. -/
def invalidForeignTx : Transaction :=
  { id := "tx1", userId := "u_other", amount := -5,
    type := TransactionType.CREDIT, category := TransactionCategory.GIFT,
    description := "neg", timestamp := 7 }

/-- Claim C1 as stated is false at a concrete input: for a MEMBER session and
a transaction on a different identity with amount -5 ≤ 0, both gate rows of
the spec deny and the amount validation fails, yet saveTransaction reports
success and mutates the transaction collection. -/
theorem saveTransaction_gate_counterexample :
    specAuthorize memberSession AuthAction.recordOwnTransaction
      { identityId := invalidForeignTx.userId, clusterId := memberSession.familyId } = false ∧
    specAuthorize memberSession AuthAction.creditArbitraryIdentity
      { identityId := invalidForeignTx.userId, clusterId := memberSession.familyId } = false ∧
    ¬ invalidForeignTx.amount > 0 ∧
    (saveTransaction [] memberSession invalidForeignTx).1.success = true ∧
    (saveTransaction [] memberSession invalidForeignTx).2 ≠ [] := by
  refine ⟨rfl, rfl, by norm_num [invalidForeignTx], rfl, by simp [saveTransaction]⟩

/-- Claim C1, amended to what the code does: saveTransaction consults no
authorization gate and validates nothing; every call, whatever the session,
amount or identity, succeeds and prepends the transaction. -/
theorem saveTransaction_unchecked (txs : List Transaction) (session : Session)
    (tx : Transaction) :
    saveTransaction txs session tx =
      ({ success := true, data := some tx, error := none }, tx :: txs) := rfl

/-! ## Claim C5: createRequest authorization and validation -/

/-- A host session: the spec's gate permits createRequest only to MEMBER
sessions, so this one must be denied. -/
def hostSession : Session :=
  { token := "tok", userId := "u_host", familyId := "fam1",
    role := UserRole.HOST, exp := 1000000 }

/-- Claim C5 as stated is false at a concrete input: a HOST session calling
createRequest with amount -1 and an empty reason is denied by the spec's
gate and fails both validations, yet the code reports success and appends a
request. -/
theorem createRequest_gate_counterexample :
    specAuthorize hostSession AuthAction.createRequestAct
      { identityId := hostSession.userId, clusterId := hostSession.familyId } = false ∧
    ¬ (-1 : ℚ) > 0 ∧
    (createRequest [] hostSession (-1) "" "req_1" 3).1.success = true ∧
    (createRequest [] hostSession (-1) "" "req_1" 3).2 ≠ [] := by
  refine ⟨rfl, by norm_num, rfl, by simp [createRequest]⟩

/-- Claim C5, amended to what the code does: createRequest consults no gate
and validates neither the amount nor the reason; every call succeeds and
appends exactly one request, with status PENDING and requesterId equal to
the session's user. -/
theorem createRequest_unchecked (reqs : List MoneyRequest) (session : Session)
    (amount : ℚ) (reason : String) (freshId : String) (now : ℤ) :
    createRequest reqs session amount reason freshId now =
      ({ success := true,
         data := some
           { id := freshId, childId := session.userId, amount := amount,
             reason := reason, status := RequestStatus.PENDING, timestamp := now },
         error := none },
       { id := freshId, childId := session.userId, amount := amount,
         reason := reason, status := RequestStatus.PENDING, timestamp := now } :: reqs) := rfl

/-! ## Claim C6: lazy session expiry -/

/-- A session that expires exactly at instant 0. -/
def boundarySession : Session :=
  { token := "tok", userId := "u1", familyId := "fam1",
    role := UserRole.HOST, exp := 0 }

/-- Claim C6 as stated is false at a concrete input: the code checks
Date.now() > exp strictly, so at now = exp = 0 getStoredSession returns the
session — whose expiresAt ≤ now — and deletes nothing. -/
theorem getStoredSession_boundary_counterexample :
    boundarySession.exp ≤ 0 ∧
    (getStoredSession (StoredVal.val boundarySession) 0).1 = some boundarySession ∧
    (getStoredSession (StoredVal.val boundarySession) 0).2 =
      StoredVal.val boundarySession := by
  refine ⟨le_refl 0, rfl, rfl⟩

/-- Claim C6, amended to the strict comparison the code performs: current()
never returns a session whose expiresAt is strictly in the past, and a
persisted session with expiresAt < now is deleted from storage with absence
returned. -/
theorem getStoredSession_lazy_expiry (slot : StoredVal Session) (now : ℤ) :
    (∀ s, (getStoredSession slot now).1 = some s → ¬ s.exp < now) ∧
    (∀ s, slot = StoredVal.val s → s.exp < now →
      getStoredSession slot now = (none, StoredVal.absent)) := by
  constructor
  · intro s hs
    cases slot with
    | absent => simp [getStoredSession] at hs
    | corrupt => simp [getStoredSession] at hs
    | val s' =>
        by_cases h : now > s'.exp
        · simp [getStoredSession, h] at hs
        · simp [getStoredSession, h] at hs
          subst hs
          omega
  · intro s hslot hexp
    subst hslot
    simp [getStoredSession, hexp]

/-- Witness for the amended C6 statement at a session expiring at 0 read at
time 1. -/
theorem getStoredSession_lazy_expiry_witness :
    getStoredSession (StoredVal.val boundarySession) 1 = (none, StoredVal.absent) :=
  (getStoredSession_lazy_expiry (StoredVal.val boundarySession) 1).2
    boundarySession rfl (by norm_num [boundarySession])

/-! ## Claim C8: corrupted-medium reads -/

/-- Claim C8 as stated is false: an unparseable stored value makes every
collection read propagate the JSON.parse error instead of degrading to the
empty collection (only the absent slot degrades). -/
theorem corrupt_read_propagates_counterexample :
    getUsers StoredVal.corrupt =
      Except.error "SyntaxError: unexpected token in JSON" ∧
    getUsers StoredVal.corrupt ≠ Except.ok [] ∧
    getTransactions StoredVal.corrupt ≠ Except.ok [] ∧
    getRequests StoredVal.corrupt ≠ Except.ok [] ∧
    getMessages StoredVal.corrupt ≠ Except.ok [] := by
  refine ⟨rfl, by simp [getUsers, readCollection], by simp [getTransactions, readCollection],
    by simp [getRequests, readCollection], by simp [getMessages, readCollection]⟩

/-- Claim C8, amended to the actual fallback: a missing stored value (getItem
null, defaulted by the || '[]' fallback) reads as the empty collection and a
present parseable value reads as itself, but an unparseable value throws out
of every collection read. -/
theorem collectionReads_degrade :
    (getUsers StoredVal.absent = Except.ok [] ∧
      (∀ l, getUsers (StoredVal.val l) = Except.ok l) ∧
      getUsers StoredVal.corrupt = Except.error "SyntaxError: unexpected token in JSON") ∧
    (getTransactions StoredVal.absent = Except.ok [] ∧
      (∀ l, getTransactions (StoredVal.val l) = Except.ok l) ∧
      getTransactions StoredVal.corrupt =
        Except.error "SyntaxError: unexpected token in JSON") ∧
    (getRequests StoredVal.absent = Except.ok [] ∧
      (∀ l, getRequests (StoredVal.val l) = Except.ok l) ∧
      getRequests StoredVal.corrupt =
        Except.error "SyntaxError: unexpected token in JSON") ∧
    (getMessages StoredVal.absent = Except.ok [] ∧
      (∀ l, getMessages (StoredVal.val l) = Except.ok l) ∧
      getMessages StoredVal.corrupt =
        Except.error "SyntaxError: unexpected token in JSON") :=
  ⟨⟨rfl, fun _ => rfl, rfl⟩, ⟨rfl, fun _ => rfl, rfl⟩,
   ⟨rfl, fun _ => rfl, rfl⟩, ⟨rfl, fun _ => rfl, rfl⟩⟩

/-! ## Claim C2: request status transitions -/

/-- A request already resolved to APPROVED. -/
def approvedReq : MoneyRequest :=
  { id := "r1", childId := "u_member", amount := 50, reason := "books",
    status := RequestStatus.APPROVED, timestamp := 5 }

/-- Claim C2 as stated is false at a concrete input: a request whose status
is already APPROVED is happily re-resolved — the call succeeds and overwrites
the status instead of failing with InvalidTransition and leaving the request
unchanged. -/
theorem updateRequestStatus_terminal_overwrite_counterexample :
    approvedReq.status = RequestStatus.APPROVED ∧
    (updateRequestStatus [approvedReq] hostSession "r1" RequestStatus.REJECTED).1.success
      = true ∧
    (updateRequestStatus [approvedReq] hostSession "r1" RequestStatus.REJECTED).2
      ≠ [approvedReq] := by
  refine ⟨rfl, by decide, by decide⟩

/-- Claim C2, amended to what the code does: resolveRequest requires a HOST
session and fails with Not found when no request carries the id, but it
performs no PENDING check — whenever the id exists the call succeeds and
overwrites that request's status in place, whatever its current status, so
I3 is not enforced here. -/
theorem updateRequestStatus_no_transition_check (reqs : List MoneyRequest) (s : Session)
    (rid : String) (st : RequestStatus) :
    (s.role ≠ UserRole.HOST →
      updateRequestStatus reqs s rid st =
        ({ success := false, data := none, error := some "Unauthorized." }, reqs)) ∧
    (s.role = UserRole.HOST → (reqs.findIdx? fun r => r.id == rid) = none →
      updateRequestStatus reqs s rid st =
        ({ success := false, data := none, error := some "Not found." }, reqs)) ∧
    (∀ i, s.role = UserRole.HOST → (reqs.findIdx? fun r => r.id == rid) = some i →
      (updateRequestStatus reqs s rid st).1.success = true ∧
      (updateRequestStatus reqs s rid st).2 =
        reqs.modify (fun r => { r with status := st }) i) := by
  refine ⟨fun h => by simp [updateRequestStatus, h],
    fun h hn => by simp [updateRequestStatus, h, hn],
    fun i h hi => by simp [updateRequestStatus, h, hi]⟩

/-- Witness for the amended C2 statement: the APPROVED request above is
overwritten to REJECTED with success. -/
theorem updateRequestStatus_no_transition_check_witness :
    (updateRequestStatus [approvedReq] hostSession "r1" RequestStatus.REJECTED).1.success
      = true ∧
    (updateRequestStatus [approvedReq] hostSession "r1" RequestStatus.REJECTED).2 =
      List.modify (fun r => { r with status := RequestStatus.REJECTED }) 0 [approvedReq] :=
  (updateRequestStatus_no_transition_check [approvedReq] hostSession "r1"
      RequestStatus.REJECTED).2.2 0 rfl (by decide)

/-! ## Claim C10: onboarding flag round-trip -/

/-- The onboarding keys are prefixed, so distinct user ids address distinct
slots of the key-value store. -/
theorem onboarding_key_inj {a b : String} (h : "onboarded_" ++ a = "onboarded_" ++ b) :
    a = b := by
  have hd : ("onboarded_" ++ a).data = ("onboarded_" ++ b).data := by rw [h]
  simp [String.data_append] at hd
  exact String.ext hd

/-- Reading right after setting the same id yields true. -/
theorem getOnboarding_set_same (kv : List (String × String)) (uid : String) :
    getOnboardingStatus (setOnboardingStatus kv uid) uid = true := by
  simp [getOnboardingStatus, setOnboardingStatus, List.lookup]

/-- Setting one id leaves every other id's flag unchanged. -/
theorem getOnboarding_set_other (kv : List (String × String)) (uid uid2 : String)
    (h : uid ≠ uid2) :
    getOnboardingStatus (setOnboardingStatus kv uid2) uid = getOnboardingStatus kv uid := by
  have hk : (("onboarded_" ++ uid) == ("onboarded_" ++ uid2)) = false := by
    simp only [beq_eq_false_iff_ne, ne_eq]
    intro hc
    exact h (onboarding_key_inj hc)
  simp [getOnboardingStatus, setOnboardingStatus, List.lookup, hk]

/-- The flag after a sequence of set calls is the flag's membership in the
sequence, relative to the starting store. -/
theorem getOnboarding_applied (ids : List String) (kv : List (String × String))
    (uid : String) :
    getOnboardingStatus (List.foldl setOnboardingStatus kv ids) uid = true ↔
      uid ∈ ids ∨ getOnboardingStatus kv uid = true := by
  induction ids generalizing kv with
  | nil => simp
  | cons i rest ih =>
      rw [List.foldl_cons, ih]
      by_cases h : uid = i
      · subst h
        simp [getOnboarding_set_same]
      · simp [getOnboarding_set_other kv uid i h, h]

/-- Claim C10: starting from an empty store the onboarding flag of every id
is false; after any sequence of setOnboardingStatus calls the flag of an id
is true exactly when that id was set; and setting one id never changes
another id's flag. -/
theorem onboarding_roundtrip (ids : List String) (kv : List (String × String))
    (uid uid2 : String) (h : uid ≠ uid2) :
    getOnboardingStatus [] uid = false ∧
    (getOnboardingStatus (List.foldl setOnboardingStatus [] ids) uid = true ↔ uid ∈ ids) ∧
    getOnboardingStatus (setOnboardingStatus kv uid2) uid = getOnboardingStatus kv uid := by
  refine ⟨rfl, ?_, getOnboarding_set_other kv uid uid2 h⟩
  rw [getOnboarding_applied]
  simp [getOnboardingStatus]

/-- Witness for C10 at ids = ["a"], checking "a" against a set of "b". -/
theorem onboarding_roundtrip_witness :
    getOnboardingStatus [] "a" = false ∧
    (getOnboardingStatus (List.foldl setOnboardingStatus [] ["a"]) "a" = true ↔
      "a" ∈ ["a"]) ∧
    getOnboardingStatus (setOnboardingStatus [] "b") "a" = getOnboardingStatus [] "a" :=
  onboarding_roundtrip ["a"] [] "a" "b" (by decide)

/-! ## Claim C4: balance correctness -/

/-- The signed fold of currentBalance splits into the CREDIT sum minus the
DEBIT sum, for any starting accumulator. -/
theorem foldl_bal (l : List Transaction) (acc : ℚ) :
    l.foldl (fun acc t =>
        if t.type == TransactionType.CREDIT then acc + t.amount else acc - t.amount) acc =
      acc + ((l.filter fun t => t.type == TransactionType.CREDIT).map Transaction.amount).sum
          - ((l.filter fun t => t.type == TransactionType.DEBIT).map Transaction.amount).sum := by
  induction l generalizing acc with
  | nil => simp
  | cons t rest ih =>
      rw [List.foldl_cons, ih]
      cases htype : t.type with
      | CREDIT =>
          simp [List.filter_cons, htype]
          ring
      | DEBIT =>
          simp [List.filter_cons, htype]
          ring

/-- currentBalance is the identity's CREDIT total minus its DEBIT total. -/
theorem currentBalance_eq (uid : String) (txs : List Transaction) :
    currentBalance uid txs =
      ((txs.filter fun t =>
          t.type == TransactionType.CREDIT && t.userId == uid).map Transaction.amount).sum -
      ((txs.filter fun t =>
          t.type == TransactionType.DEBIT && t.userId == uid).map Transaction.amount).sum := by
  rw [currentBalance, foldl_bal, zero_add, List.filter_filter, List.filter_filter]

/-- Claim C4: for every identity and finite transaction sequence,
currentBalance is the sum of that identity's CREDIT amounts minus the sum of
its DEBIT amounts, starting from 0; it is total (the empty set yields 0) and
its value does not depend on the ordering of the input. -/
theorem computeBalance_correct (uid : String) (txs txs' : List Transaction)
    (hperm : txs.Perm txs') :
    currentBalance uid txs =
      ((txs.filter fun t =>
          t.type == TransactionType.CREDIT && t.userId == uid).map Transaction.amount).sum -
      ((txs.filter fun t =>
          t.type == TransactionType.DEBIT && t.userId == uid).map Transaction.amount).sum ∧
    currentBalance uid [] = 0 ∧
    currentBalance uid txs = currentBalance uid txs' := by
  refine ⟨currentBalance_eq uid txs, rfl, ?_⟩
  rw [currentBalance_eq, currentBalance_eq]
  rw [((hperm.filter _).map _).sum_eq, ((hperm.filter _).map _).sum_eq]

/-- A CREDIT of 5 for identity u at time 1. -/
def c4Credit : Transaction :=
  { id := "t1", userId := "u", amount := 5, type := TransactionType.CREDIT,
    category := TransactionCategory.ALLOWANCE, description := "c", timestamp := 1 }

/-- A DEBIT of 2 for identity u at time 2. -/
def c4Debit : Transaction :=
  { id := "t2", userId := "u", amount := 2, type := TransactionType.DEBIT,
    category := TransactionCategory.FOOD, description := "d", timestamp := 2 }

/-- Witness for C4: the balance of a two-element sequence is unchanged under
reordering. -/
theorem computeBalance_correct_witness :
    currentBalance "u" [c4Credit, c4Debit] = currentBalance "u" [c4Debit, c4Credit] :=
  (computeBalance_correct "u" [c4Credit, c4Debit] [c4Debit, c4Credit] (by decide)).2.2

/-! ## Claim C7: the running-balance series -/

/-- Inserting is a permutation: the result is the element consed on. -/
theorem insertOrd_perm {α : Type} (le : α → α → Bool) (t : α) (l : List α) :
    (insertOrd le t l).Perm (t :: l) := by
  induction l with
  | nil => exact List.Perm.refl _
  | cons x xs ih =>
      rw [insertOrd]
      by_cases h : le x t
      · rw [if_pos h]
        exact (ih.cons x).trans (List.Perm.swap t x xs)
      · rw [if_neg h]

/-- Sorting is a permutation of the input. -/
theorem sortOrd_perm {α : Type} (le : α → α → Bool) (l : List α) :
    (sortOrd le l).Perm l := by
  have key : ∀ (l acc : List α),
      (l.foldl (fun acc t => insertOrd le t acc) acc).Perm (acc ++ l) := by
    intro l
    induction l with
    | nil => simp
    | cons t rest ih =>
        intro acc
        rw [List.foldl_cons]
        refine (ih (insertOrd le t acc)).trans ?_
        refine (((insertOrd_perm le t acc).append_right rest).trans ?_)
        exact (List.perm_middle).symm
  simpa using key l []

/-- Inserting into a le-sorted list keeps it le-sorted, given that le is
total and transitive. -/
theorem insertOrd_pairwise {α : Type} (le : α → α → Bool)
    (htot : ∀ a b, le a b || le b a)
    (htrans : ∀ a b c, le a b = true → le b c = true → le a c = true)
    (t : α) (l : List α) (hl : l.Pairwise fun a b => le a b = true) :
    (insertOrd le t l).Pairwise fun a b => le a b = true := by
  induction l with
  | nil => simp [insertOrd]
  | cons x xs ih =>
      rw [insertOrd]
      rcases List.pairwise_cons.mp hl with ⟨hx, hxs⟩
      by_cases h : le x t
      · simp only [h, if_true]
        refine List.pairwise_cons.mpr ⟨?_, ih hxs⟩
        intro y hy
        have hy' : y ∈ t :: xs := (insertOrd_perm le t xs).mem_iff.mp hy
        rcases List.mem_cons.mp hy' with rfl | hyxs
        · exact h
        · exact hx y hyxs
      · simp only [h, if_false]
        have hxt : le t x = true := by
          have := htot x t
          rcases Bool.or_eq_true_iff.mp this with h1 | h2
          · exact absurd h1 h
          · exact h2
        refine List.pairwise_cons.mpr ⟨?_, hl⟩
        intro y hy
        rcases List.mem_cons.mp hy with rfl | hyxs
        · exact hxt
        · exact htrans t x y hxt (hx y hyxs)

/-- The sort produces a le-sorted list, given that le is total and
transitive. -/
theorem sortOrd_pairwise {α : Type} (le : α → α → Bool)
    (htot : ∀ a b, le a b || le b a)
    (htrans : ∀ a b c, le a b = true → le b c = true → le a c = true)
    (l : List α) :
    (sortOrd le l).Pairwise fun a b => le a b = true := by
  have key : ∀ (l acc : List α), (acc.Pairwise fun a b => le a b = true) →
      (l.foldl (fun acc t => insertOrd le t acc) acc).Pairwise fun a b => le a b = true := by
    intro l
    induction l with
    | nil => intro acc h; simpa using h
    | cons t rest ih =>
        intro acc h
        rw [List.foldl_cons]
        exact ih _ (insertOrd_pairwise le htot htrans t acc h)
  exact key l [] (List.Pairwise.nil)

/-- Inserting a transaction into a timestamp-sorted list appends it to the
block of its own timestamp: filtering any fixed timestamp out of the result
appends the element exactly when it carries that timestamp. -/
theorem insertOrd_filter_ts (k : ℤ) (t : Transaction) (l : List Transaction)
    (hl : l.Pairwise fun a b => leTs a b = true) :
    (insertOrd leTs t l).filter (fun x => x.timestamp == k) =
      l.filter (fun x => x.timestamp == k) ++ if t.timestamp == k then [t] else [] := by
  induction l with
  | nil =>
      rw [insertOrd]
      by_cases ht : t.timestamp == k
      · simp [List.filter_cons, ht]
      · simp [List.filter_cons, ht]
  | cons x xs ih =>
      rcases List.pairwise_cons.mp hl with ⟨hx, hxs⟩
      rw [insertOrd]
      by_cases h : leTs x t
      · rw [if_pos h]
        by_cases hxk : x.timestamp == k
        · simp only [List.filter_cons, hxk, if_pos, ih hxs]
          simp
        · simp only [List.filter_cons, hxk]
          simp only [Bool.false_eq_true, if_false, ih hxs]
      · rw [if_neg h]
        by_cases ht : t.timestamp == k
        · have htk : t.timestamp = k := by simpa using ht
          have hxgt : ¬ x.timestamp ≤ t.timestamp := by
            simpa [leTs, decide_eq_true_eq] using h
          have hnone : ∀ y ∈ x :: xs, ¬ (y.timestamp == k) = true := by
            intro y hy
            rcases List.mem_cons.mp hy with rfl | hyxs
            · simp only [beq_iff_eq]
              omega
            · have hxy : leTs x y = true := hx y hyxs
              have : x.timestamp ≤ y.timestamp := by
                simpa [leTs, decide_eq_true_eq] using hxy
              simp only [beq_iff_eq]
              omega
          have hfilter : (x :: xs).filter (fun y => y.timestamp == k) = [] := by
            rw [List.filter_eq_nil_iff]
            exact hnone
          rw [List.filter_cons, if_pos ht, hfilter]
          simp [ht]
        · rw [List.filter_cons]
          simp only [ht, Bool.false_eq_true, if_false]
          simp [ht]

/-- The timestamp comparator is total. -/
theorem leTs_total : ∀ a b : Transaction, leTs a b || leTs b a := by
  intro a b
  rcases le_total a.timestamp b.timestamp with h | h
  · simp [leTs, h]
  · simp [leTs, h]

/-- The timestamp comparator is transitive. -/
theorem leTs_trans : ∀ a b c : Transaction,
    leTs a b = true → leTs b c = true → leTs a c = true := by
  intro a b c hab hbc
  have h1 : a.timestamp ≤ b.timestamp := by simpa [leTs, decide_eq_true_eq] using hab
  have h2 : b.timestamp ≤ c.timestamp := by simpa [leTs, decide_eq_true_eq] using hbc
  simp [leTs, decide_eq_true_eq]
  omega

/-- Stability of the time-series sort: within each timestamp the sorted list
lists the transactions in their original relative order. -/
theorem sortOrd_filter_ts (k : ℤ) (l : List Transaction) :
    (sortOrd leTs l).filter (fun x => x.timestamp == k) =
      l.filter (fun x => x.timestamp == k) := by
  have htot := leTs_total
  have htrans := leTs_trans
  have key : ∀ (l acc : List Transaction), (acc.Pairwise fun a b => leTs a b = true) →
      (l.foldl (fun acc t => insertOrd leTs t acc) acc).filter (fun x => x.timestamp == k) =
        acc.filter (fun x => x.timestamp == k) ++ l.filter (fun x => x.timestamp == k) := by
    intro l
    induction l with
    | nil => intro acc h; simp
    | cons t rest ih =>
        intro acc h
        rw [List.foldl_cons, ih _ (insertOrd_pairwise leTs htot htrans t acc h),
          insertOrd_filter_ts k t acc h, List.filter_cons]
        by_cases ht : t.timestamp == k
        · simp [ht]
        · simp [ht]
  simpa using key l [] List.Pairwise.nil

/-- Appending one transaction extends the series by one point carrying the
transaction's timestamp and the updated running balance. -/
theorem timeSeriesOf_concat (l : List Transaction) (t : Transaction) :
    timeSeriesOf (l ++ [t]) =
      timeSeriesOf l ++
        [(t.timestamp,
          if t.type == TransactionType.CREDIT then
            (((timeSeriesOf l).getLast?.map Prod.snd).getD 0) + t.amount
          else (((timeSeriesOf l).getLast?.map Prod.snd).getD 0) - t.amount)] := by
  rw [timeSeriesOf, List.foldl_append]
  rfl

/-- The series' timestamps are the input's timestamps, in order. -/
theorem timeSeriesOf_map_fst (l : List Transaction) :
    (timeSeriesOf l).map Prod.fst = l.map Transaction.timestamp := by
  induction l using List.reverseRecOn with
  | nil => rfl
  | append_singleton l t ih =>
      rw [timeSeriesOf_concat]
      simp [ih]

/-- The balance of the series' last point is the signed fold of the whole
input, the same fold currentBalance performs. -/
theorem timeSeriesOf_last (l : List Transaction) :
    ((timeSeriesOf l).getLast?.map Prod.snd).getD 0 =
      l.foldl (fun acc t =>
        if t.type == TransactionType.CREDIT then acc + t.amount else acc - t.amount) 0 := by
  induction l using List.reverseRecOn with
  | nil => rfl
  | append_singleton l t ih =>
      rw [timeSeriesOf_concat, List.foldl_append, List.foldl_cons, List.foldl_nil]
      simp only [List.getLast?_concat]
      rw [ih]
      rfl

/-- Claim C7: the running-balance series of the analytics engine is the
stable ascending timestamp sort of the input followed by the signed fold of
currentBalance, one point per transaction; its last point's balance equals
currentBalance over the same transaction set (taken, as the engine's
contract has it, for one identity's transactions), and both sides agree on
emptiness for the empty set. -/
theorem runningBalance_consistency (uid : String) (txs : List Transaction)
    (hown : ∀ t ∈ txs, t.userId = uid) :
    (∀ balance now, txs ≠ [] →
      (fiscalInsights txs balance now).1.map Insights.timeSeries =
        some (timeSeriesOf (sortOrd leTs txs))) ∧
    (timeSeriesOf (sortOrd leTs txs)).map Prod.fst =
      (sortOrd leTs txs).map Transaction.timestamp ∧
    (timeSeriesOf (sortOrd leTs txs)).length = txs.length ∧
    ((sortOrd leTs txs).Pairwise fun a b => a.timestamp ≤ b.timestamp) ∧
    (∀ k, (sortOrd leTs txs).filter (fun x => x.timestamp == k) =
      txs.filter (fun x => x.timestamp == k)) ∧
    ((timeSeriesOf (sortOrd leTs txs)).getLast?.map Prod.snd).getD 0 =
      currentBalance uid txs ∧
    (txs = [] → timeSeriesOf (sortOrd leTs txs) = [] ∧ currentBalance uid txs = 0) := by
  have hperm := sortOrd_perm leTs txs
  refine ⟨?_, timeSeriesOf_map_fst _, ?_, ?_, fun k => sortOrd_filter_ts k txs, ?_, ?_⟩
  · intro balance now hne
    have hlen : ¬ txs.length = 0 := by simpa using hne
    simp [fiscalInsights, hlen]
  · have h1 : (timeSeriesOf (sortOrd leTs txs)).length
        = ((timeSeriesOf (sortOrd leTs txs)).map Prod.fst).length := by simp
    rw [h1, timeSeriesOf_map_fst]
    simp [hperm.length_eq]
  · exact (sortOrd_pairwise leTs leTs_total leTs_trans txs).imp
      (fun h => by simpa [leTs, decide_eq_true_eq] using h)
  · have hfilter : txs.filter (fun t => t.userId == uid) = txs := by
      rw [List.filter_eq_self]
      intro t ht
      rw [hown t ht]
      simp
    rw [timeSeriesOf_last, currentBalance, hfilter, foldl_bal, foldl_bal,
      ((hperm.filter _).map _).sum_eq, ((hperm.filter _).map _).sum_eq]
  · intro h
    subst h
    exact ⟨rfl, rfl⟩

/-- A lone CREDIT of 7 for identity u at time 3. -/
def c7Credit : Transaction :=
  { id := "t7", userId := "u", amount := 7, type := TransactionType.CREDIT,
    category := TransactionCategory.GIFT, description := "g", timestamp := 3 }

/-- Witness for C7 on a one-element transaction set. -/
theorem runningBalance_consistency_witness :
    ((timeSeriesOf (sortOrd leTs [c7Credit])).getLast?.map Prod.snd).getD 0 =
      currentBalance "u" [c7Credit] :=
  (runningBalance_consistency "u" [c7Credit] (by decide)).2.2.2.2.2.1

/-! ## Claim C9: analytics referential transparency -/

/-- A DEBIT of 100 at time 0, the whole input of the C9 counterexample. -/
def c9Debit : Transaction :=
  { id := "t9", userId := "u", amount := 100, type := TransactionType.DEBIT,
    category := TransactionCategory.FOOD, description := "d", timestamp := 0 }

/-- Claim C9 as stated is false at a concrete input: two calls of the engine
with the identical (transactions, balance) input, one day and two days after
the only transaction, return different insights — the burn rate divides by
the elapsed days read from the ambient clock, so output is not a function of
the inputs alone.  (Neither call mutates the input array.) -/
theorem fiscalInsights_repeat_call_counterexample :
    (fiscalInsights [c9Debit] 0 86400000).2 = [c9Debit] ∧
    (fiscalInsights [c9Debit] 0 172800000).2 = [c9Debit] ∧
    (fiscalInsights [c9Debit] 0 86400000).1.map Insights.burnRate = some 100 ∧
    (fiscalInsights [c9Debit] 0 172800000).1.map Insights.burnRate = some 50 ∧
    (fiscalInsights [c9Debit] 0 86400000).1 ≠ (fiscalInsights [c9Debit] 0 172800000).1 := by
  have h1 : (fiscalInsights [c9Debit] 0 86400000).1.map Insights.burnRate = some 100 := by
    simp [fiscalInsights, c9Debit, jsMax, List.min?]
  have h2 : (fiscalInsights [c9Debit] 0 172800000).1.map Insights.burnRate = some 50 := by
    simp [fiscalInsights, c9Debit, jsMax, List.min?]
    norm_num
  refine ⟨rfl, rfl, h1, h2, fun h => ?_⟩
  rw [h, h2] at h1
  exact absurd (Option.some_injective _ h1) (by norm_num)

/-- Claim C9, amended to the actual dependency: the engine never mutates its
input array (the time-series and median sorts act on spread copies, and the
caller's array comes back exactly as passed), and its time series, category
distribution and dispersion statistics are pure functions of the
(transactions, balance) input — but burn rate and liquidity index also read
the clock, so identical inputs can produce different outputs across calls. -/
theorem fiscalInsights_clock_pure (txs : List Transaction) (b : ℚ) (n1 n2 : ℤ) :
    (fiscalInsights txs b n1).2 = txs ∧
    (fiscalInsights txs b n1).1.map Insights.timeSeries =
      (fiscalInsights txs b n2).1.map Insights.timeSeries ∧
    (fiscalInsights txs b n1).1.map Insights.categoryTotals =
      (fiscalInsights txs b n2).1.map Insights.categoryTotals ∧
    (fiscalInsights txs b n1).1.map Insights.stats =
      (fiscalInsights txs b n2).1.map Insights.stats := by
  by_cases h : txs.length = 0
  · simp [fiscalInsights, h]
  · simp [fiscalInsights, h]

/-! ## Claim C3: identity uniqueness — normalization lemmas -/

/-- Lowering an uppercase letter lands 32 code points higher. -/
theorem lowerChar_toNat_of (c : Char) (h1 : 65 ≤ c.toNat) (h2 : c.toNat ≤ 90) :
    (lowerChar c).toNat = c.toNat + 32 := by
  have hv : (c.toNat + 32).isValidChar := Or.inl (by omega)
  rw [lowerChar, if_pos ⟨h1, h2⟩, Char.ofNat, dif_pos hv]
  rfl

/-- Outside the uppercase range, lowering is the identity. -/
theorem lowerChar_eq_of_not (c : Char) (h : ¬(65 ≤ c.toNat ∧ c.toNat ≤ 90)) :
    lowerChar c = c := by
  rw [lowerChar, if_neg h]

/-- Lowering twice is lowering once. -/
theorem lowerChar_idem (c : Char) : lowerChar (lowerChar c) = lowerChar c := by
  by_cases h : 65 ≤ c.toNat ∧ c.toNat ≤ 90
  · have ht := lowerChar_toNat_of c h.1 h.2
    exact lowerChar_eq_of_not _ (by omega)
  · rw [lowerChar_eq_of_not c h]
    exact lowerChar_eq_of_not c h

/-- Lowering neither creates nor destroys whitespace. -/
theorem isWsChar_lowerChar (c : Char) : isWsChar (lowerChar c) = isWsChar c := by
  by_cases h : 65 ≤ c.toNat ∧ c.toNat ≤ 90
  · have ht := lowerChar_toNat_of c h.1 h.2
    have hL : isWsChar (lowerChar c) = false := by
      simp only [isWsChar, ht, Bool.or_eq_false_iff, beq_eq_false_iff_ne, ne_eq]
      omega
    have hR : isWsChar c = false := by
      simp only [isWsChar, Bool.or_eq_false_iff, beq_eq_false_iff_ne, ne_eq]
      omega
    rw [hL, hR]
  · rw [lowerChar_eq_of_not c h]

/-- Trimming is idempotent. -/
theorem trimChars_idem (l : List Char) : trimChars (trimChars l) = trimChars l := by
  rw [trimChars, trimChars]
  have hAdrop : List.dropWhile isWsChar (List.dropWhile isWsChar l) =
      List.dropWhile isWsChar l := List.dropWhile_idempotent _ _
  have hpre := List.rdropWhile_prefix isWsChar (List.dropWhile isWsChar l)
  have hdropR : List.dropWhile isWsChar
      (List.rdropWhile isWsChar (List.dropWhile isWsChar l)) =
      List.rdropWhile isWsChar (List.dropWhile isWsChar l) := by
    rcases hr : List.rdropWhile isWsChar (List.dropWhile isWsChar l) with _ | ⟨x, xs⟩
    · simp
    · rcases hpre with ⟨t, ht⟩
      rw [hr] at ht
      have hx : ¬ isWsChar x = true := by
        rw [List.cons_append] at ht
        have hself : List.dropWhile isWsChar (x :: (xs ++ t)) = x :: (xs ++ t) := by
          rw [ht]
          exact hAdrop
        have h0 : 0 < (x :: (xs ++ t)).length := by simp
        have := List.dropWhile_eq_self_iff.mp hself h0
        simpa using this
      simp [List.dropWhile_cons, hx]
  rw [hdropR, List.rdropWhile_idempotent]

/-- Trimming commutes with lowering. -/
theorem trimChars_map_lower (l : List Char) :
    trimChars (l.map lowerChar) = (trimChars l).map lowerChar := by
  have hcong : (fun c => isWsChar (lowerChar c)) = isWsChar := funext isWsChar_lowerChar
  rw [trimChars, trimChars, List.dropWhile_map]
  show List.rdropWhile isWsChar
      ((List.dropWhile (isWsChar ∘ lowerChar) l).map lowerChar) = _
  have hcomp : (isWsChar ∘ lowerChar) = isWsChar := funext isWsChar_lowerChar
  rw [hcomp, List.rdropWhile, List.rdropWhile, ← List.map_reverse, List.dropWhile_map]
  show (List.map lowerChar
      (List.dropWhile (isWsChar ∘ lowerChar) (List.dropWhile isWsChar l).reverse)).reverse = _
  rw [hcomp, List.map_reverse]

/-- The service normalization trim-then-lowercase is idempotent. -/
theorem jsNorm_idem (s : String) : jsNorm (jsNorm s) = jsNorm s := by
  apply String.ext
  have hmm : (lowerChar ∘ lowerChar) = lowerChar := funext lowerChar_idem
  show (trimChars ((trimChars s.data).map lowerChar)).map lowerChar =
    (trimChars s.data).map lowerChar
  rw [trimChars_map_lower, trimChars_idem, List.map_map, hmm]

/-- A failed duplicate scan means no stored user matches the pair exactly. -/
theorem not_dup_of_any_false {users : List User} {fid uname : String}
    (h : (users.any fun u => u.familyId == fid && u.username == uname) = false) :
    ∀ u ∈ users, ¬(u.familyId = fid ∧ u.username = uname) := by
  intro u hu hc
  have ht : (users.any fun u => u.familyId == fid && u.username == uname) = true :=
    List.any_eq_true.mpr ⟨u, hu, by simp [hc.1, hc.2]⟩
  rw [h] at ht
  exact Bool.false_ne_true ht

/-- An exact stored match makes the duplicate scan fire. -/
theorem any_true_of_dup {users : List User} {fid uname : String} (u : User) (hu : u ∈ users)
    (h1 : u.familyId = fid) (h2 : u.username = uname) :
    (users.any fun u => u.familyId == fid && u.username == uname) = true :=
  List.any_eq_true.mpr ⟨u, hu, by simp [h1, h2]⟩

/-- Every identity-touching call preserves the inductive invariant. -/
theorem identityInv_step {S S' : IdentityStore} (hInv : IdentityInv S)
    (hStep : IdentityStep S S') : IdentityInv S' := by
  obtain ⟨hNorm, hDist, hSess⟩ := hInv
  cases hStep with
  | signup familyId handle pass freshId =>
      by_cases hany : (S.users.any fun u =>
          u.familyId == jsNorm familyId && u.username == jsNorm handle) = true
      · rw [show (signupCluster S.users familyId handle pass freshId).2 = S.users from by
          simp [signupCluster, hany]]
        exact ⟨hNorm, hDist, hSess⟩
      · have hfalse : (S.users.any fun u =>
            u.familyId == jsNorm familyId && u.username == jsNorm handle) = false := by
          simpa using hany
        have heq : (signupCluster S.users familyId handle pass freshId).2 =
            S.users ++ [{ id := freshId, familyId := jsNorm familyId, name := handle,
                          username := jsNorm handle, password := pass,
                          role := UserRole.HOST, parentId := none, isActive := true }] := by
          simp [signupCluster, hfalse]
        rw [heq]
        refine ⟨?_, ?_, ?_⟩
        · intro u hu
          rcases List.mem_append.mp hu with hOld | hNew
          · exact hNorm u hOld
          · have hh := List.mem_singleton.mp hNew
            subst hh
            exact ⟨jsNorm_idem familyId, jsNorm_idem handle⟩
        · simp only [UsersDistinct, List.pairwise_append]
          refine ⟨hDist, List.pairwise_singleton _ _, ?_⟩
          intro a ha b hb
          have hh := List.mem_singleton.mp hb
          subst hh
          intro hc
          exact not_dup_of_any_false hfalse a ha ⟨hc.1, hc.2⟩
        · intro sess hsess
          rcases hSess sess hsess with ⟨u, hu, he⟩
          exact ⟨u, List.mem_append_left _ hu, he⟩
  | loginStep familyId handle pass tok now sess h =>
      rcases hfind : S.users.find? fun u =>
          u.familyId == jsNorm familyId && u.username == jsNorm handle &&
            u.password == pass with _ | u
      · simp [login, hfind] at h
      · simp only [login, hfind] at h
        refine ⟨hNorm, hDist, ?_⟩
        intro s2 hs2
        rcases List.mem_cons.mp hs2 with rfl | hold
        · refine ⟨u, List.mem_of_find?_eq_some hfind, ?_⟩
          have h' := Option.some_injective _ h
          rw [← h']
        · exact hSess s2 hold
  | provision sess username pass freshId hmem =>
      by_cases hrole : sess.role = UserRole.HOST
      · by_cases hany : (S.users.any fun u =>
            u.familyId == sess.familyId && u.username == jsNorm username) = true
        · rw [show (provisionMember S.users sess username pass freshId).2 = S.users from by
            simp [provisionMember, hrole, hany]]
          exact ⟨hNorm, hDist, hSess⟩
        · have hfalse : (S.users.any fun u =>
              u.familyId == sess.familyId && u.username == jsNorm username) = false := by
            simpa using hany
          have heq : (provisionMember S.users sess username pass freshId).2 =
              S.users ++ [{ id := freshId, familyId := sess.familyId, name := username,
                            username := jsNorm username, password := pass,
                            role := UserRole.MEMBER, parentId := some sess.userId,
                            isActive := true }] := by
            simp [provisionMember, hrole, hfalse]
          rw [heq]
          refine ⟨?_, ?_, ?_⟩
          · intro u hu
            rcases List.mem_append.mp hu with hOld | hNew
            · exact hNorm u hOld
            · have hh := List.mem_singleton.mp hNew
              subst hh
              refine ⟨?_, jsNorm_idem username⟩
              rcases hSess sess hmem with ⟨w, hw, hwf⟩
              rw [hwf]
              exact (hNorm w hw).1
          · simp only [UsersDistinct, List.pairwise_append]
            refine ⟨hDist, List.pairwise_singleton _ _, ?_⟩
            intro a ha b hb
            have hh := List.mem_singleton.mp hb
            subst hh
            intro hc
            exact not_dup_of_any_false hfalse a ha ⟨hc.1, hc.2⟩
          · intro s2 hs2
            rcases hSess s2 hs2 with ⟨u, hu, he⟩
            exact ⟨u, List.mem_append_left _ hu, he⟩
      · rw [show (provisionMember S.users sess username pass freshId).2 = S.users from by
          simp [provisionMember, hrole]]
        exact ⟨hNorm, hDist, hSess⟩

/-- The inductive invariant holds in every reachable identity-store state. -/
theorem reachable_identityInv {S : IdentityStore} (h : ReachableIdentity S) :
    IdentityInv S := by
  induction h with
  | init => exact ⟨by simp, List.Pairwise.nil, by simp⟩
  | step hR hS ih => exact identityInv_step ih hS

/-- Claim C3: in every state reachable from the empty identity store by
signupCluster / login / provisionMember calls, no two stored identities share
(clusterId, displayHandle) after trimming and case-folding; and a signup or
provision call that would create such a duplicate fails — with the
duplicate-identity error on the signup path and, for HOST sessions, on the
provision path — and adds no identity. -/
theorem identity_uniqueness (S : IdentityStore) (h : ReachableIdentity S) :
    UsersDistinctNorm S.users ∧
    (∀ familyId handle pass freshId,
      (∃ u ∈ S.users, jsNorm u.familyId = jsNorm familyId ∧
        jsNorm u.username = jsNorm handle) →
      (signupCluster S.users familyId handle pass freshId).1.success = false ∧
      (signupCluster S.users familyId handle pass freshId).1.error =
        some "Identity handle already provisioned in this cluster." ∧
      (signupCluster S.users familyId handle pass freshId).2 = S.users) ∧
    (∀ sess ∈ S.issued, ∀ username pass freshId,
      (∃ u ∈ S.users, jsNorm u.familyId = jsNorm sess.familyId ∧
        jsNorm u.username = jsNorm username) →
      (provisionMember S.users sess username pass freshId).1.success = false ∧
      (provisionMember S.users sess username pass freshId).2 = S.users ∧
      (sess.role = UserRole.HOST →
        (provisionMember S.users sess username pass freshId).1.error =
          some "Member handle already provisioned.")) := by
  obtain ⟨hNorm, hDist, hSess⟩ := reachable_identityInv h
  simp only [UsersDistinct] at hDist
  refine ⟨?_, ?_, ?_⟩
  · simp only [UsersDistinctNorm]
    refine List.Pairwise.imp_of_mem ?_ hDist
    intro a b ha hb hR hc
    refine hR ⟨?_, ?_⟩
    · rw [← (hNorm a ha).1, ← (hNorm b hb).1]
      exact hc.1
    · rw [← (hNorm a ha).2, ← (hNorm b hb).2]
      exact hc.2
  · rintro familyId handle pass freshId ⟨u, hu, h1, h2⟩
    have hu1 : u.familyId = jsNorm familyId := by
      rw [← (hNorm u hu).1]
      exact h1
    have hu2 : u.username = jsNorm handle := by
      rw [← (hNorm u hu).2]
      exact h2
    have hany := any_true_of_dup u hu hu1 hu2
    refine ⟨?_, ?_, ?_⟩ <;> simp [signupCluster, hany]
  · rintro sess hsess username pass freshId ⟨u, hu, h1, h2⟩
    obtain ⟨w, hw, hwf⟩ := hSess sess hsess
    have hsn : jsNorm sess.familyId = sess.familyId := by
      rw [hwf]
      exact (hNorm w hw).1
    have hu1 : u.familyId = sess.familyId := by
      rw [← (hNorm u hu).1, h1]
      exact hsn
    have hu2 : u.username = jsNorm username := by
      rw [← (hNorm u hu).2]
      exact h2
    have hany := any_true_of_dup u hu hu1 hu2
    by_cases hrole : sess.role = UserRole.HOST
    · refine ⟨?_, ?_, fun _ => ?_⟩ <;> simp [provisionMember, hrole, hany]
    · refine ⟨?_, ?_, fun hh => absurd hh hrole⟩ <;> simp [provisionMember, hrole]

/-- The identity store after one successful signup of (fam1, alice). -/
def c3Store : IdentityStore :=
  { users := (signupCluster [] "fam1" "alice" "pw" "u1").2, issued := [] }

/-- Witness for C3: the state after one signup is reachable and
normalization-distinct, and a signup of the same pair up to trimming and
case-folding fails without adding an identity. -/
theorem identity_uniqueness_witness :
    UsersDistinctNorm c3Store.users ∧
    (signupCluster c3Store.users " FAM1 " "ALICE" "pw2" "u2").1.success = false ∧
    (signupCluster c3Store.users " FAM1 " "ALICE" "pw2" "u2").2 = c3Store.users := by
  have hreach : ReachableIdentity c3Store :=
    ReachableIdentity.step ReachableIdentity.init
      (IdentityStep.signup { users := [], issued := [] } "fam1" "alice" "pw" "u1")
  have h := identity_uniqueness c3Store hreach
  have hdup := h.2.1 " FAM1 " "ALICE" "pw2" "u2" (by decide)
  exact ⟨h.1, hdup.1, hdup.2.2⟩

end ZenLedger
